import Mathlib

/-!
Verification of the admission/scheduling core of the ai-coding-assistant
repository against its natural-language specification.

The scheduler lives in `src/extension/out/AiScheduler.js` (module-level
mutable state `jobQueue`, `isRunning`, `lastCallTime`, `statusBarItem`,
`cooldownInterval`, constant `MIN_DELAY = 21000`, functions `initScheduler`,
`runAI`, `processQueue`, `sleep`, `startCooldown`, `stopCooldown`).
The retry wrapper `safeAIRequest` lives in the server file
(`src/unnamed/part_000`, lines 36-46).

Shallow embedding conventions:
  - Wall-clock time is a `Nat` of milliseconds.
  - A job's `fn` (an async thunk) is determinized as a `duration` in
    milliseconds plus an `outcome : Except Nat Nat` (`.ok v` means the
    promise resolves with `v`, `.error e` means it rejects with `e`).
  - Settling the promise returned by `runAI` is recorded in a `Dispatch`
    record (`settled` is the value passed to `resolve` or `reject`).
  - The sequential drain of `processQueue` (one activation, plus its
    tail recursion at line 48) is the function `processQueue` below.
  - The concurrent behaviour (several `processQueue` activations parked
    at the two suspension points `await sleep(wait)` at line 31 and
    `await job.fn()` at line 39) is the event machine `step`/`run` below.
-/

deriving instance DecidableEq for Except

namespace AiScheduler

/-- The constant MIN_DELAY from AiScheduler.js line 8: 21000 ms ("21 seconds
for 3 RPM model"), the minimum spacing between calls. -/
def MIN_DELAY : Nat := 21000

/-- A job record as pushed by runAI (line 16): payload `fn` determinized as
`duration`/`outcome`, the submission priority, and `id`, the submission
sequence number (strictly increasing across submissions), standing in for
the position in the push order. -/
structure Job where
  id : Nat
  priority : Int
  duration : Nat
  outcome : Except Nat Nat
deriving Repr, DecidableEq

/-- Insert a job into a list sorted by descending priority, placing it
before the first element of strictly smaller priority (so after nothing of
equal priority that is yet to be folded in; see `sortJobs`). -/
def insertJob (j : Job) : List Job → List Job
  | [] => [j]
  | k :: l => if k.priority > j.priority then k :: insertJob j l else j :: k :: l

/-- Stable sort by descending priority.  `jobQueue.sort((a, b) => b.priority
- a.priority)` at AiScheduler.js line 17: the ECMAScript sort is stable, and
a stable sort's output is determined by the comparator, so this stable
insertion sort (equal-priority elements keep their relative order) computes
the same list. -/
def sortJobs : List Job → List Job
  | [] => []
  | j :: l => insertJob j (sortJobs l)

/-- The queue mutation performed by runAI lines 16-17: push the new job, then
re-sort by descending priority. -/
def enqueue (q : List Job) (j : Job) : List Job := sortJobs (q ++ [j])

/-- runAI (lines 14-19) restricted to its queue effect: `runAI(fn, priority
= 1)` pushes the job and re-sorts.  The Lean default argument mirrors the
JavaScript default parameter `priority = 1`. -/
def runAI (q : List Job) (i dur : Nat) (outcome : Except Nat Nat)
    (priority : Int := 1) : List Job :=
  enqueue q ⟨i, priority, dur, outcome⟩

/-- Queue built by a sequence of runAI submissions starting from the empty
module-level `jobQueue`. -/
def buildQueue (subs : List Job) : List Job := subs.foldl enqueue []

/-- One dispatch as observed by the caller: the job, the wall-clock instant
`job.fn()` is invoked (line 39), the instant it settles, and the settlement
of the promise returned by runAI (`resolve result` at line 41 or
`reject err` at line 44). -/
structure Dispatch where
  job : Job
  start : Nat
  stop : Nat
  settled : Except Nat Nat
deriving Repr, DecidableEq

/-- The gate-plus-invocation body of processQueue (lines 26-45) for one job:
compute `diff = now - lastCallTime`; if `diff < minDelay` sleep
`minDelay - diff`; invoke the job; on success set `lastCallTime = Date.now()`
(line 40) and resolve, on failure reject leaving `lastCallTime` unchanged.
Returns the dispatch record, the new `lastCallTime` and the new clock. -/
def dispatchStep (minDelay : Nat) (job : Job) (lastCallTime clock : Nat) :
    Dispatch × Nat × Nat :=
  let diff := clock - lastCallTime
  let startT := if diff < minDelay then clock + (minDelay - diff) else clock
  let stopT := startT + job.duration
  match job.outcome with
  | .ok v => (⟨job, startT, stopT, .ok v⟩, stopT, stopT)
  | .error e => (⟨job, startT, stopT, .error e⟩, lastCallTime, stopT)

/-- The module-level mutable state of AiScheduler.js (lines 5-10), minus the
clock, which is threaded separately.  `statusBarItem = none` means
initScheduler was never called (line 9: `let statusBarItem = null`);
`cooldownInterval` holds the countdown value captured by the pending
`setInterval` callback, `none` when no interval is active. -/
structure ModuleState where
  jobQueue : List Job
  isRunning : Bool
  lastCallTime : Nat
  statusBarItem : Option String
  cooldownInterval : Option Nat
deriving Repr, DecidableEq

/-- The cooldown text written at lines 57 and 62. -/
def cooldownText (remaining : Nat) : String :=
  "⏳ AI Cooldown: " ++ toString remaining ++ "s"

/-- The ready text written at line 71. -/
def readyText : String := "$(check) AI Ready"

/-- startCooldown (lines 53-64): no-op when `statusBarItem` is null;
otherwise writes the countdown text (`remaining = Math.ceil(ms / 1000)`) and
installs the interval. -/
def startCooldown (ms : Nat) (s : ModuleState) : ModuleState :=
  match s.statusBarItem with
  | none => s
  | some _ =>
    let remaining := (ms + 999) / 1000
    { s with statusBarItem := some (cooldownText remaining),
             cooldownInterval := some remaining }

/-- stopCooldown (lines 65-72): no-op when `statusBarItem` is null;
otherwise clears the interval and writes the ready text. -/
def stopCooldown (s : ModuleState) : ModuleState :=
  match s.statusBarItem with
  | none => s
  | some _ =>
    { s with cooldownInterval := none, statusBarItem := some readyText }

/-- One firing of the setInterval callback (lines 58-63): decrement
`remaining`; if it reached zero, stopCooldown; otherwise rewrite the
countdown text. -/
def cooldownTick (s : ModuleState) : ModuleState :=
  match s.cooldownInterval with
  | none => s
  | some r =>
    if r - 1 = 0 then stopCooldown s
    else
      { s with cooldownInterval := some (r - 1),
               statusBarItem := s.statusBarItem.map fun _ => cooldownText (r - 1) }

/-- The sequential drain of processQueue (lines 21-49): the queue is passed
as an explicit list (mirroring the module variable `jobQueue`, which the
state's `jobQueue` field tracks), `lastCallTime` and the wall clock are
threaded, and the cooldown display calls happen exactly where the source
makes them (startCooldown at line 30 when `diff < MIN_DELAY`, stopCooldown
at line 33).  Each iteration shifts the head job, brackets the invocation
with `isRunning`, and recurses on the rest (line 48). -/
def processQueue (minDelay : Nat) :
    List Job → Nat → Nat → ModuleState → List Dispatch × ModuleState × Nat
  | [], _, clock, s => ([], s, clock)
  | job :: rest, lastCallTime, clock, s =>
    let diff := clock - lastCallTime
    let s1 := if diff < minDelay then startCooldown (minDelay - diff) s else s
    let s2 := stopCooldown s1
    let s3 := { s2 with jobQueue := rest, isRunning := true }
    let d := dispatchStep minDelay job lastCallTime clock
    let s4 := { s3 with isRunning := false, lastCallTime := d.2.1 }
    let r := processQueue minDelay rest d.2.1 d.2.2 s4
    (d.1 :: r.1, r.2)

/-- The module state at load time (lines 5-10). -/
def initialState : ModuleState := ⟨[], false, 0, none, none⟩

/-- The dispatch trace of draining queue `q` with gate state `lastCallTime
= t` starting at wall-clock `c`. -/
def dispatches (minDelay : Nat) (q : List Job) (t c : Nat) : List Dispatch :=
  (processQueue minDelay q t c initialState).1

/-! ### Interleaving model of processQueue

JavaScript is single-threaded, so an async function runs atomically between
`await` points.  `processQueue` has exactly two suspension points:
`await sleep(wait)` at line 31 and `await job.fn()` at line 39.  A parked
activation is therefore fully described by which of the two awaits it sits
at (plus its wake time, resp. its shifted job). -/

/-- A processQueue activation parked at one of its two awaits. -/
inductive TaskPc where
  | sleeping (wake : Nat)
  | invoking (job : Job)
deriving Repr, DecidableEq

/-- Whether a parked activation is between line 39 and line 41/44, i.e. has
a `job.fn()` call in flight. -/
def TaskPc.inFlightB : TaskPc → Bool
  | .sleeping _ => false
  | .invoking _ => true

/-- Global state of the interleaving model: the scheduler module variables
(display state elided — it never feeds back into scheduling), the wall
clock, and the list of parked activations. -/
structure CState where
  jobQueue : List Job
  isRunning : Bool
  lastCallTime : Nat
  clock : Nat
  tasks : List TaskPc
deriving Repr, DecidableEq

/-- Run a fresh processQueue activation synchronously from line 21 to its
first suspension: return on `isRunning` (line 22) or empty queue (line 24);
park at the sleep (line 31) when `diff < MIN_DELAY`; otherwise shift the
head job, set `isRunning = true` (lines 34-37) and park at the `fn` await
(line 39). -/
def entry (s : CState) : CState :=
  if s.isRunning then s
  else
    match s.jobQueue with
    | [] => s
    | job :: rest =>
      let diff := s.clock - s.lastCallTime
      if diff < MIN_DELAY then
        { s with tasks := s.tasks ++ [.sleeping (s.clock + (MIN_DELAY - diff))] }
      else
        { s with jobQueue := rest, isRunning := true,
                 tasks := s.tasks ++ [.invoking job] }

/-- Events of the interleaving model: a runAI submission (which pushes,
re-sorts and synchronously calls processQueue, lines 16-18), the passage of
wall-clock time, a sleep timer firing for activation `i`, and the `fn` call
of activation `i` settling. -/
inductive Event where
  | submit (j : Job)
  | elapse (n : Nat)
  | wakeSleep (i : Nat)
  | settleFn (i : Nat)
deriving Repr, DecidableEq

/-- One event of the interleaving model.  `wakeSleep` resumes an activation
parked at line 31: it runs stopCooldown (display only), shifts the head job
and sets `isRunning = true` — the source does NOT re-check `isRunning` after
the sleep, and this model reproduces that faithfully.  `settleFn` resumes an
activation parked at line 39: resolve (updating `lastCallTime`, line 40) or
reject, clear `isRunning` (line 46), and tail-call processQueue if the queue
is non-empty (lines 47-48).  Events whose guard does not hold (waking a task
before its timer, or naming a task not parked at the matching await) are
no-ops. -/
def step (s : CState) : Event → CState
  | .submit j => entry { s with jobQueue := enqueue s.jobQueue j }
  | .elapse n => { s with clock := s.clock + n }
  | .wakeSleep i =>
    match s.tasks.get? i with
    | some (.sleeping u) =>
      if s.clock < u then s
      else
        match s.jobQueue with
        | [] => { s with tasks := s.tasks.eraseIdx i }
        | job :: rest =>
          { s with jobQueue := rest, isRunning := true,
                   tasks := s.tasks.set i (.invoking job) }
    | _ => s
  | .settleFn i =>
    match s.tasks.get? i with
    | some (.invoking job) =>
      let c1 := s.clock + job.duration
      let s1 :=
        match job.outcome with
        | .ok _ => { s with clock := c1, lastCallTime := c1 }
        | .error _ => { s with clock := c1 }
      let s2 := { s1 with isRunning := false, tasks := s1.tasks.eraseIdx i }
      if s2.jobQueue.isEmpty then s2 else entry s2
    | _ => s

/-- Run a list of events from a state. -/
def run (s : CState) (es : List Event) : CState := es.foldl step s

/-- Number of `job.fn()` calls currently executing. -/
def inFlight (s : CState) : Nat := (s.tasks.filter TaskPc.inFlightB).length

/-- Module state at load time in the interleaving model: empty queue, not
running, `lastCallTime = 0`, some realistic epoch clock (any value ≥
MIN_DELAY behaves identically for the first dispatch). -/
def raceStart : CState := ⟨[], false, 0, 100000, []⟩

/-- Job A of the priority scenario: priority 1, submitted first. -/
def jobA : Job := ⟨0, 1, 0, .ok 0⟩

/-- Job B of the priority scenario: priority 5, submitted second. -/
def jobB : Job := ⟨1, 5, 0, .ok 0⟩

/-- Job C of the priority scenario: priority 1, submitted third. -/
def jobC : Job := ⟨2, 1, 0, .ok 0⟩

/-- The racing schedule: submit A (dispatches immediately and succeeds);
then, inside the 21 s cooldown window, submit B and C — each submission
parks a processQueue activation at the line 31 sleep, because `isRunning`
is still false there; let the cooldown elapse; both timers fire, and each
resumed activation shifts a job and starts `fn` without re-checking
`isRunning`. -/
def raceTrace : List Event :=
  [.submit jobA, .settleFn 0, .submit jobB, .submit jobC,
   .elapse 21000, .wakeSleep 0, .wakeSleep 1]

/-- The spec's priority scenario as the submissions actually reach the code:
three runAI calls in order, each synchronously entering processQueue
(line 18).  The gate is open at the first submission (`clock -
lastCallTime = 100000 ≥ MIN_DELAY`, the same behaviour a spacing of 0
gives), so nothing separates submission from dispatch. -/
def scenarioSubs : List Event := [.submit jobA, .submit jobB, .submit jobC]

/-- Continuation of the scenario: A's invocation settles, the cooldown the
drain then starts elapses, and the parked activation wakes to dispatch the
next job. -/
def scenarioCont : List Event :=
  scenarioSubs ++ [.settleFn 0, .elapse 21000, .wakeSleep 0]

/-- A schedule on which two dispatches are not separated by the minimum
spacing: as in `raceTrace`, B and C are submitted during A's cooldown
window and both activations park at the line-31 sleep; the first wakes and
dispatches B, B settles successfully (updating `lastCallTime`), and then
the second parked activation — whose timer was already due — wakes and
starts C at that very instant. -/
def spacingRaceTrace : List Event :=
  [.submit jobA, .settleFn 0, .submit jobB, .submit jobC,
   .elapse 21000, .wakeSleep 0, .settleFn 0, .wakeSleep 0]

/-- Whether a dispatch's settlement was a resolution (the `try` branch of
processQueue completed and line 40-41 ran). -/
def Dispatch.successB (d : Dispatch) : Bool :=
  match d.settled with
  | .ok _ => true
  | .error _ => false

/-- Whether an Except value is a success. -/
def isOkB {ε α : Type} : Except ε α → Bool
  | .ok _ => true
  | .error _ => false

/-- safeAIRequest from the server (src/unnamed/part_000 lines 36-46):
`try { return await fn() } catch (err) { if (retries <= 0) throw err;
await sleep(1000); return safeAIRequest(fn, retries - 1) }`.
The effectful thunk `fn` is determinized by its call number `attempt`
(the first call is attempt 0).  Returns the propagated result together with
the number of backoff delays performed; each delay is the fixed 1000 ms
`setTimeout` at line 43.  `retries` keeps the source's numeric type
(`retries <= 0` guards the recursion), mirrored here as `Int`, with the
JavaScript default `retries = 2`. -/
def safeAIRequest {ε α : Type} (fn : Nat → Except ε α) (retries : Int := 2)
    (attempt : Nat := 0) : Except ε α × Nat :=
  match fn attempt with
  | .ok v => (.ok v, 0)
  | .error e =>
    if h : retries ≤ 0 then (.error e, 0)
    else
      have : (retries - 1).toNat < retries.toNat := by omega
      let r := safeAIRequest fn (retries - 1) (attempt + 1)
      (r.1, r.2 + 1)
termination_by retries.toNat

/-- The error taxonomy of spec section 7 as far as the core raises it. -/
inductive ErrKind where
  | CancelledBeforeDispatch
  | invocationError (e : Nat)
deriving Repr, DecidableEq

/-- Modelled from the spec: `cancelQueued(predicate)` does not exist in the
source — AiScheduler.js offers no cancellation at all, and the only
cancellation in the repository is the axios transport cancel of an already
dispatched request (src/unnamed/part_001, analyzeDocument).  Spec sections
4.3 and 7: removes all Queued jobs matching the predicate from the queue and
rejects each removed job's completion handle with `CancelledBeforeDispatch`.
Returns the remaining queue and the rejections issued. -/
def cancelQueued (p : Job → Bool) (q : List Job) :
    List Job × List (Job × ErrKind) :=
  (q.filter fun j => !(p j),
   (q.filter p).map fun j => (j, ErrKind.CancelledBeforeDispatch))

/-- A sample supersession predicate ("same document" stand-in): cancels the
job with sequence number 0. -/
def cancelPred : Job → Bool := fun j => j.id == 0

/-! ### Queue-ordering lemmas -/

/-- The dispatch-order relation of the spec: higher priority first, ties by
submission sequence. -/
def jobBefore (a b : Job) : Prop :=
  a.priority > b.priority ∨ (a.priority = b.priority ∧ a.id < b.id)

/-- A queue ordered the way the spec's ordering rule demands. -/
def QOrdered (q : List Job) : Prop := q.Pairwise jobBefore

instance : DecidableRel jobBefore := fun a b => by
  unfold jobBefore
  infer_instance

instance (q : List Job) : Decidable (QOrdered q) := by
  unfold QOrdered
  infer_instance

theorem mem_insertJob {x j : Job} {l : List Job} :
    x ∈ insertJob j l ↔ x = j ∨ x ∈ l := by
  induction l with
  | nil => simp [insertJob]
  | cons k l ih =>
    rw [insertJob]
    by_cases h : k.priority > j.priority
    · rw [if_pos h]
      simp only [List.mem_cons, ih]
      tauto
    · rw [if_neg h]
      simp only [List.mem_cons]

theorem insertJob_perm (j : Job) (l : List Job) :
    List.Perm (insertJob j l) (j :: l) := by
  induction l with
  | nil => rfl
  | cons k l ih =>
    rw [insertJob]
    by_cases h : k.priority > j.priority
    · rw [if_pos h]
      exact (ih.cons k).trans (List.Perm.swap j k l)
    · rw [if_neg h]

theorem sortJobs_perm (l : List Job) : List.Perm (sortJobs l) l := by
  induction l with
  | nil => rfl
  | cons j l ih =>
    rw [sortJobs]
    exact (insertJob_perm j (sortJobs l)).trans (ih.cons j)

theorem enqueue_perm (q : List Job) (j : Job) : List.Perm (enqueue q j) (q ++ [j]) :=
  sortJobs_perm (q ++ [j])

theorem mem_enqueue {x j : Job} {q : List Job} :
    x ∈ enqueue q j ↔ x ∈ q ∨ x = j := by
  rw [(enqueue_perm q j).mem_iff]
  simp

theorem insertJob_pairwise {j : Job} {l : List Job}
    (hl : l.Pairwise jobBefore)
    (hj : ∀ k ∈ l, j.priority = k.priority → j.id < k.id) :
    (insertJob j l).Pairwise jobBefore := by
  induction l with
  | nil => simp [insertJob]
  | cons k l ih =>
    rw [List.pairwise_cons] at hl
    obtain ⟨hk, hl'⟩ := hl
    rw [insertJob]
    by_cases h : k.priority > j.priority
    · rw [if_pos h]
      rw [List.pairwise_cons]
      refine ⟨?_, ih hl' fun x hx hpx => hj x (List.mem_cons_of_mem _ hx) hpx⟩
      intro x hx
      rcases mem_insertJob.mp hx with rfl | hx
      · exact Or.inl h
      · exact hk x hx
    · rw [if_neg h]
      rw [List.pairwise_cons]
      refine ⟨?_, List.pairwise_cons.mpr ⟨hk, hl'⟩⟩
      intro x hx
      rcases List.mem_cons.mp hx with rfl | hx
      · by_cases hp : j.priority > x.priority
        · exact Or.inl hp
        · have : j.priority = x.priority := by omega
          exact Or.inr ⟨this, hj x (List.mem_cons_self _ _) this⟩
      · rcases hk x hx with hkx | ⟨hkx, _⟩
        · by_cases hp : j.priority > x.priority
          · exact Or.inl hp
          · exact absurd (by omega : k.priority > j.priority) h
        · by_cases hp : j.priority > x.priority
          · exact Or.inl hp
          · have : j.priority = x.priority := by omega
            exact Or.inr ⟨this, hj x (List.mem_cons_of_mem _ hx) this⟩

theorem sortJobs_pairwise {l : List Job}
    (hl : l.Pairwise fun a b => a.priority = b.priority → a.id < b.id) :
    QOrdered (sortJobs l) := by
  induction l with
  | nil => exact List.Pairwise.nil
  | cons j l ih =>
    rw [List.pairwise_cons] at hl
    obtain ⟨hj, hl'⟩ := hl
    rw [sortJobs]
    exact insertJob_pairwise (ih hl')
      fun k hk => hj k ((sortJobs_perm l).mem_iff.mp hk)

/-- Enqueueing a job whose submission sequence number is fresh keeps the
queue ordered. -/
theorem enqueue_qordered {q : List Job} {j : Job} (hq : QOrdered q)
    (hfresh : ∀ k ∈ q, k.id < j.id) : QOrdered (enqueue q j) := by
  apply sortJobs_pairwise
  rw [List.pairwise_append]
  refine ⟨hq.imp ?_, ?_, ?_⟩
  · intro a b hab _
    rcases hab with h | ⟨_, h⟩
    · omega
    · exact h
  · simp
  · intro a ha b hb _
    rw [List.mem_singleton] at hb
    subst hb
    exact hfresh a ha

theorem buildQueue_aux {subs : List Job} {q : List Job} (hq : QOrdered q)
    (hfresh : ∀ a ∈ q, ∀ b ∈ subs, a.id < b.id)
    (hsubs : subs.Pairwise fun a b => a.id < b.id) :
    QOrdered (subs.foldl enqueue q) := by
  induction subs generalizing q with
  | nil => exact hq
  | cons j subs ih =>
    rw [List.pairwise_cons] at hsubs
    obtain ⟨hjsubs, hsubs'⟩ := hsubs
    rw [List.foldl_cons]
    apply ih
    · exact enqueue_qordered hq fun k hk => hfresh k hk j (List.mem_cons_self _ _)
    · intro a ha b hb
      rcases mem_enqueue.mp ha with ha | rfl
      · exact hfresh a ha b (List.mem_cons_of_mem _ hb)
      · exact hjsubs b hb
    · exact hsubs'

/-- A queue built by a sequence of submissions with strictly increasing
sequence numbers is ordered. -/
theorem buildQueue_qordered {subs : List Job}
    (hsubs : subs.Pairwise fun a b => a.id < b.id) :
    QOrdered (buildQueue subs) :=
  buildQueue_aux List.Pairwise.nil (by simp) hsubs

theorem buildQueue_perm (subs : List Job) : List.Perm (buildQueue subs) subs := by
  suffices h : ∀ q, List.Perm (subs.foldl enqueue q) (q ++ subs) by
    simpa using h []
  induction subs with
  | nil => simp
  | cons j subs ih =>
    intro q
    rw [List.foldl_cons]
    refine (ih (enqueue q j)).trans ?_
    have : q ++ j :: subs = (q ++ [j]) ++ subs := by simp
    rw [this]
    exact (enqueue_perm q j).append_right subs

/-! ### Drain lemmas -/

/-- The dispatch list produced by the drain does not depend on the
module-state argument (only the display fields of the state evolve during a
drain, and nothing branches on them). -/
theorem processQueue_fst_const (minDelay : Nat) (q : List Job) (t c : Nat)
    (s s' : ModuleState) :
    (processQueue minDelay q t c s).1 = (processQueue minDelay q t c s').1 := by
  induction q generalizing t c s s' with
  | nil => rfl
  | cons job rest ih =>
    rw [processQueue, processQueue]
    simp only
    rw [ih]

theorem dispatches_nil (minDelay t c : Nat) : dispatches minDelay [] t c = [] := rfl

theorem dispatches_cons (minDelay : Nat) (job : Job) (rest : List Job)
    (t c : Nat) :
    dispatches minDelay (job :: rest) t c =
      (dispatchStep minDelay job t c).1 ::
        dispatches minDelay rest (dispatchStep minDelay job t c).2.1
          (dispatchStep minDelay job t c).2.2 := by
  rw [dispatches, processQueue]
  simp only
  rw [dispatches, processQueue_fst_const]

theorem dispatchStep_job (minDelay : Nat) (job : Job) (t c : Nat) :
    (dispatchStep minDelay job t c).1.job = job := by
  rw [dispatchStep]
  cases job.outcome <;> rfl

theorem dispatchStep_settled (minDelay : Nat) (job : Job) (t c : Nat) :
    (dispatchStep minDelay job t c).1.settled = job.outcome := by
  rw [dispatchStep]
  cases h : job.outcome <;> simp [h]

theorem dispatchStep_start (minDelay : Nat) (job : Job) (t c : Nat) :
    (dispatchStep minDelay job t c).1.start =
      if c - t < minDelay then c + (minDelay - (c - t)) else c := by
  rw [dispatchStep]
  cases job.outcome <;> rfl

theorem dispatchStep_stop (minDelay : Nat) (job : Job) (t c : Nat) :
    (dispatchStep minDelay job t c).1.stop =
      (dispatchStep minDelay job t c).1.start + job.duration := by
  rw [dispatchStep]
  cases job.outcome <;> rfl

theorem dispatchStep_lastCall_ok (minDelay : Nat) (job : Job) (t c : Nat)
    (v : Nat) (h : job.outcome = .ok v) :
    (dispatchStep minDelay job t c).2.1 = (dispatchStep minDelay job t c).1.stop := by
  simp only [dispatchStep, h]

theorem dispatchStep_lastCall_error (minDelay : Nat) (job : Job) (t c : Nat)
    (e : Nat) (h : job.outcome = .error e) :
    (dispatchStep minDelay job t c).2.1 = t := by
  simp only [dispatchStep, h]

theorem dispatchStep_clock (minDelay : Nat) (job : Job) (t c : Nat) :
    (dispatchStep minDelay job t c).2.2 = (dispatchStep minDelay job t c).1.stop := by
  rw [dispatchStep]
  cases job.outcome <;> rfl

/-- Every dispatch starts no earlier than `lastCallTime + minDelay`,
provided the clock is not behind `lastCallTime`. -/
theorem dispatchStep_start_ge (minDelay : Nat) (job : Job) {t c : Nat}
    (htc : t ≤ c) :
    t + minDelay ≤ (dispatchStep minDelay job t c).1.start := by
  rw [dispatchStep_start]
  split <;> omega

theorem dispatchStep_start_ge_clock (minDelay : Nat) (job : Job) (t c : Nat) :
    c ≤ (dispatchStep minDelay job t c).1.start := by
  rw [dispatchStep_start]
  split <;> omega

/-- Clock/gate invariant preserved by one dispatch. -/
theorem dispatchStep_le (minDelay : Nat) (job : Job) {t c : Nat}
    (htc : t ≤ c) :
    (dispatchStep minDelay job t c).2.1 ≤ (dispatchStep minDelay job t c).2.2 := by
  rw [dispatchStep]
  cases job.outcome <;> simp only <;> split <;> omega

/-- The drain dispatches exactly the queued jobs, in queue order. -/
theorem dispatches_map_job (minDelay : Nat) (q : List Job) (t c : Nat) :
    (dispatches minDelay q t c).map Dispatch.job = q := by
  induction q generalizing t c with
  | nil => rfl
  | cons job rest ih =>
    rw [dispatches_cons, List.map_cons, dispatchStep_job, ih]

/-- Every dispatch in the drain settles with its own job's outcome. -/
theorem dispatches_settled (minDelay : Nat) (q : List Job) (t c : Nat) :
    ∀ d ∈ dispatches minDelay q t c, d.settled = d.job.outcome := by
  induction q generalizing t c with
  | nil => intro d hd; cases hd
  | cons job rest ih =>
    intro d hd
    rw [dispatches_cons] at hd
    rcases List.mem_cons.mp hd with rfl | hd
    · rw [dispatchStep_settled, dispatchStep_job]
    · exact ih _ _ d hd

/-- The head dispatch of a non-empty drain, explicitly. -/
theorem dispatches_head (minDelay : Nat) (job : Job) (rest : List Job)
    (t c : Nat) :
    (dispatches minDelay (job :: rest) t c).head? =
      some (dispatchStep minDelay job t c).1 := by
  rw [dispatches_cons]
  rfl

/-- Consecutive-dispatch spacing: whenever a dispatch succeeds, the next
dispatch in the drain starts at least `minDelay` after it settled. -/
theorem dispatches_chain (minDelay : Nat) (q : List Job) :
    ∀ {t c : Nat}, t ≤ c →
      (dispatches minDelay q t c).Chain' fun d d' =>
        d.successB = true → d.stop + minDelay ≤ d'.start := by
  induction q with
  | nil => intro t c _; exact List.chain'_nil
  | cons job rest ih =>
    intro t c htc
    rw [dispatches_cons, List.chain'_cons']
    refine ⟨?_, ih (dispatchStep_le minDelay job htc)⟩
    intro d' hd' hok
    cases rest with
    | nil => cases hd'
    | cons j2 r2 =>
      rw [dispatches_head] at hd'
      rw [Option.mem_def, Option.some_inj] at hd'
      subst hd'
      have hsucc : ∃ v, job.outcome = .ok v := by
        have := dispatchStep_settled minDelay job t c
        unfold Dispatch.successB at hok
        rw [this] at hok
        cases h : job.outcome with
        | ok v => exact ⟨v, rfl⟩
        | error e => rw [h] at hok; simp at hok
      obtain ⟨v, hv⟩ := hsucc
      have hlast := dispatchStep_lastCall_ok minDelay job t c v hv
      have hclock := dispatchStep_clock minDelay job t c
      have hge := dispatchStep_start_ge minDelay j2
        (le_of_eq (hlast.trans hclock.symm))
      rw [← hlast]
      exact hge

/-! ### Retry-wrapper lemmas -/

theorem safeAIRequest_ok {ε α : Type} (fn : Nat → Except ε α) (retries : Int)
    (attempt : Nat) (v : α) (h : fn attempt = .ok v) :
    safeAIRequest fn retries attempt = (.ok v, 0) := by
  rw [safeAIRequest, h]

theorem safeAIRequest_error_stop {ε α : Type} (fn : Nat → Except ε α)
    (retries : Int) (attempt : Nat) (e : ε) (h : fn attempt = .error e)
    (hr : retries ≤ 0) :
    safeAIRequest fn retries attempt = (.error e, 0) := by
  rw [safeAIRequest, h]
  dsimp only
  rw [dif_pos hr]

theorem safeAIRequest_error_retry {ε α : Type} (fn : Nat → Except ε α)
    (retries : Int) (attempt : Nat) (e : ε) (h : fn attempt = .error e)
    (hr : ¬retries ≤ 0) :
    safeAIRequest fn retries attempt =
      ((safeAIRequest fn (retries - 1) (attempt + 1)).1,
       (safeAIRequest fn (retries - 1) (attempt + 1)).2 + 1) := by
  rw [safeAIRequest, h]
  dsimp only
  rw [dif_neg hr]

/-- When every attempt up to `i + m` fails, the wrapper makes `m` retries
after the attempt at `i` and propagates the failure of the last attempt
unchanged, with one backoff delay per retry. -/
theorem safeAIRequest_all_fail {ε α : Type} (fn : Nat → Except ε α)
    (err : Nat → ε) (m i : Nat)
    (hfail : ∀ k, i ≤ k → k ≤ i + m → fn k = .error (err k)) :
    safeAIRequest fn (m : Int) i = (.error (err (i + m)), m) := by
  induction m generalizing i with
  | zero =>
    rw [safeAIRequest_error_stop fn _ i _ (hfail i le_rfl (by omega)) (by omega)]
    simp
  | succ m ih =>
    rw [safeAIRequest_error_retry fn _ i _ (hfail i le_rfl (by omega)) (by omega)]
    have hc : ((m + 1 : Nat) : Int) - 1 = (m : Int) := by push_cast; ring
    rw [hc]
    rw [ih (i + 1) fun k hk1 hk2 => hfail k (by omega) (by omega)]
    have hi : i + 1 + m = i + (m + 1) := by omega
    rw [hi]

/-- When the first success is at attempt `i + k` with `k ≤ m`, the wrapper
returns that success after exactly `k` backoff delays. -/
theorem safeAIRequest_first_success {ε α : Type} (fn : Nat → Except ε α)
    (m i k : Nat) (v : α) (hk : k ≤ m)
    (hfail : ∀ j, j < k → isOkB (fn (i + j)) = false)
    (hok : fn (i + k) = .ok v) :
    safeAIRequest fn (m : Int) i = (.ok v, k) := by
  induction k generalizing i m with
  | zero =>
    exact safeAIRequest_ok fn _ i v (by simpa using hok)
  | succ k ih =>
    obtain ⟨e, he⟩ : ∃ e, fn i = .error e := by
      have h0 : isOkB (fn i) = false := by simpa using hfail 0 (by omega)
      cases h : fn i with
      | ok v => rw [h] at h0; simp [isOkB] at h0
      | error e => exact ⟨e, rfl⟩
    rw [safeAIRequest_error_retry fn _ i _ he (by omega)]
    obtain ⟨m', rfl⟩ : ∃ m', m = m' + 1 := ⟨m - 1, by omega⟩
    have hc : ((m' + 1 : Nat) : Int) - 1 = (m' : Int) := by push_cast; ring
    rw [hc]
    rw [ih m' (i + 1) (by omega)
      (fun j hj => by
        have hi : i + 1 + j = i + (j + 1) := by omega
        rw [hi]
        exact hfail (j + 1) (by omega))
      (by
        have hi : i + 1 + k = i + (k + 1) := by omega
        rw [hi]
        exact hok)]

/-! ### Claims -/

/-- C1: the single-flight claim fails on the code.  `isRunning` is set only
after the cooldown sleep (line 37, after the `await sleep(wait)` at line 31),
so a runAI submission arriving while an activation is parked at the sleep
passes the `isRunning` guard at line 22 and parks a second activation at the
same sleep; when both timers fire, each shifts a job and starts `job.fn()`,
and two invocations execute at the same instant.  This theorem evaluates the
interleaving model at that schedule: submit A (succeeds immediately), submit
B and C inside A's cooldown window, let the cooldown elapse, fire both
timers — two `fn` calls are then in flight, and the re-entries during the
cooldown were not no-ops. -/
theorem C1_single_flight_violated : 1 < inFlight (run raceStart raceTrace) := by
  decide

/-- C5: exactly-once settlement and loop immunity.  A drain of queue `q`
produces exactly one dispatch per queued job, in queue order (so each
completion handle is settled exactly once), and each dispatch settles with
its own job's invocation outcome — resolved with the result or rejected with
the error — while the drain continues past failed jobs (every job of `q`
appears in the trace regardless of earlier failures). -/
theorem C5_exactly_once_settlement :
    ∀ (minDelay : Nat) (q : List Job) (t c : Nat),
      (dispatches minDelay q t c).map Dispatch.job = q ∧
      ∀ d ∈ dispatches minDelay q t c, d.settled = d.job.outcome :=
  fun minDelay q t c =>
    ⟨dispatches_map_job minDelay q t c, dispatches_settled minDelay q t c⟩

/-- Witness for C5 at a concrete queue containing a failing job followed by
a succeeding one: both are dispatched, the first rejected, the second
resolved. -/
theorem C5_exactly_once_settlement_witness :
    (dispatches 0 [⟨0, 1, 0, .error 9⟩, jobB] 0 0).map Dispatch.job
        = [⟨0, 1, 0, .error 9⟩, jobB] ∧
      (⟨⟨0, 1, 0, .error 9⟩, 0, 0, .error 9⟩ : Dispatch).settled
        = (⟨0, 1, 0, .error 9⟩ : Job).outcome :=
  ⟨(C5_exactly_once_settlement 0 [⟨0, 1, 0, .error 9⟩, jobB] 0 0).1,
   (C5_exactly_once_settlement 0 [⟨0, 1, 0, .error 9⟩, jobB] 0 0).2
     ⟨⟨0, 1, 0, .error 9⟩, 0, 0, .error 9⟩ (by decide)⟩

/-- C7: the scenario claim — submit A(priority 1), B(priority 5),
C(priority 1) in that order with an always-succeeding invoker and an open
gate, expecting dispatch order B, A, C — fails on the code.  runAI calls
processQueue synchronously (line 18), and with the gate open the first
submission is shifted and invoked during its own runAI call, before B and C
are even pushed; priority ordering can only act on the jobs still queued.
The theorem evaluates the code at the scenario: after the three
submissions, A's invocation is in flight and B, C are still queued; after A
settles and the parked activation wakes, B is in flight and C queued — the
actual dispatch order is A, B, C. -/
theorem C7_scenario_first_dispatch_is_A :
    (run raceStart scenarioSubs).tasks = [.invoking jobA] ∧
      (run raceStart scenarioSubs).jobQueue = [jobB, jobC] ∧
      (run raceStart scenarioCont).tasks = [.invoking jobB] ∧
      (run raceStart scenarioCont).jobQueue = [jobC] := by
  decide

/-- C8: frame on failure.  A dispatch whose invocation rejects leaves
`lastCallTime` unchanged (line 40 runs only in the `try` branch), so the
dispatch following a failed one still measures its spacing from the previous
success: its start is at least `lastCallTime + minDelay` for the
`lastCallTime` that was in force before the failed dispatch. -/
theorem C8_failure_frame :
    ∀ (minDelay : Nat) (job : Job) (t c e : Nat), job.outcome = .error e →
      (dispatchStep minDelay job t c).2.1 = t ∧
      ∀ (j2 : Job) (rest : List Job) (d2 : Dispatch), t ≤ c →
        (dispatches minDelay (job :: j2 :: rest) t c).get? 1 = some d2 →
        t + minDelay ≤ d2.start := by
  intro minDelay job t c e h
  refine ⟨dispatchStep_lastCall_error minDelay job t c e h, ?_⟩
  intro j2 rest d2 htc hd2
  rw [dispatches_cons, dispatches_cons] at hd2
  rw [List.get?_cons_succ, List.get?_cons_zero, Option.some_inj] at hd2
  subst hd2
  have hlast := dispatchStep_lastCall_error minDelay job t c e h
  have hclock := dispatchStep_clock minDelay job t c
  have hstop := dispatchStep_stop minDelay job t c
  have hcs := dispatchStep_start_ge_clock minDelay job t c
  have h1 : t ≤ (dispatchStep minDelay job t c).2.2 := by
    rw [hclock, hstop]; omega
  have hge := dispatchStep_start_ge minDelay j2 (hlast.le.trans h1)
  rw [hlast] at hge
  rw [hlast]
  exact hge

/-- Witness for C8: a failing job with `lastCallTime = 5`, then a second
job; the gate value is unchanged and the second dispatch starts at
`5 + 100`. -/
theorem C8_failure_frame_witness :
    (dispatchStep 100 ⟨0, 1, 0, .error 3⟩ 5 5).2.1 = 5 ∧
      5 + 100 ≤ (⟨jobB, 105, 105, .ok 0⟩ : Dispatch).start :=
  ⟨(C8_failure_frame 100 ⟨0, 1, 0, .error 3⟩ 5 5 3 rfl).1,
   (C8_failure_frame 100 ⟨0, 1, 0, .error 3⟩ 5 5 3 rfl).2 jobB []
     ⟨jobB, 105, 105, .ok 0⟩ (by decide) (by decide)⟩

/-- C9: a runAI call that omits the priority argument enqueues the job with
priority exactly 1 — the queue is identical to the one produced by an
explicit priority-1 submission, so the job is ordered among explicitly
prioritized jobs exactly as a priority-1 job. -/
theorem C9_default_priority :
    ∀ (q : List Job) (i dur : Nat) (outcome : Except Nat Nat),
      runAI q i dur outcome = runAI q i dur outcome 1 ∧
      runAI q i dur outcome = enqueue q ⟨i, 1, dur, outcome⟩ :=
  fun _ _ _ _ => ⟨rfl, rfl⟩

/-- C2: dispatch ordering.  First conjunct: when the scheduler pops from an
ordered queue (every reachable queue is ordered, by `enqueue_qordered` /
`buildQueue_qordered`), the popped head is dispatched first and beats every
remaining job either on priority or, at equal priority, on submission
sequence (stable FIFO).  Second conjunct: for any submission sequence with
pairwise distinct priorities, the full dispatch order is strictly descending
by priority. -/
theorem C2_dispatch_ordering :
    (∀ (minDelay : Nat) (job : Job) (rest : List Job) (t c : Nat),
        QOrdered (job :: rest) →
        (dispatches minDelay (job :: rest) t c).head?.map Dispatch.job = some job ∧
        ∀ k ∈ rest, k.priority < job.priority ∨
          (k.priority = job.priority ∧ job.id < k.id)) ∧
      ∀ (subs : List Job) (minDelay t c : Nat),
        subs.Pairwise (fun a b => a.id < b.id) →
        subs.Pairwise (fun a b => a.priority ≠ b.priority) →
        ((dispatches minDelay (buildQueue subs) t c).map
            fun d => d.job.priority).Pairwise (· > ·) := by
  constructor
  · intro minDelay job rest t c hq
    constructor
    · rw [dispatches_head]
      simp only [Option.map_some']
      rw [dispatchStep_job]
    · intro k hk
      rcases (List.pairwise_cons.mp hq).1 k hk with h | ⟨h1, h2⟩
      · exact Or.inl h
      · exact Or.inr ⟨h1.symm, h2⟩
  · intro subs minDelay t c hid hpri
    have hq : QOrdered (buildQueue subs) := buildQueue_qordered hid
    have hpri2 : (buildQueue subs).Pairwise fun a b => a.priority ≠ b.priority :=
      ((buildQueue_perm subs).pairwise_iff fun h => h.symm).mpr hpri
    have hcomb : (buildQueue subs).Pairwise fun a b => a.priority > b.priority := by
      refine (hq.and hpri2).imp ?_
      intro a b hab
      obtain ⟨hb, hne⟩ := hab
      rcases hb with h | ⟨he, _⟩
      · exact h
      · exact absurd he hne
    have hmap : ((dispatches minDelay (buildQueue subs) t c).map
        fun d => d.job.priority) = (buildQueue subs).map fun j => j.priority := by
      conv_rhs => rw [← dispatches_map_job minDelay (buildQueue subs) t c]
      rw [List.map_map]
      rfl
    rw [hmap, List.pairwise_map]
    exact hcomb

/-- Witness for C2: pop from the ordered queue [B, A, C], and the
distinct-priority batch [priority 1, priority 5] dispatches 5 before 1. -/
theorem C2_dispatch_ordering_witness :
    ((dispatches 0 [jobB, jobA, jobC] 0 0).head?.map Dispatch.job = some jobB ∧
      ∀ k ∈ [jobA, jobC], k.priority < jobB.priority ∨
        (k.priority = jobB.priority ∧ jobB.id < k.id)) ∧
      ((dispatches 0 (buildQueue [jobA, jobB]) 0 0).map
          fun d => d.job.priority).Pairwise (· > ·) :=
  ⟨C2_dispatch_ordering.1 0 jobB [jobA, jobC] 0 0 (by decide),
   C2_dispatch_ordering.2 [jobA, jobB] 0 0 0 (by decide) (by decide)⟩

/-- C3: the minimum-spacing claim fails on the code, through the same
mid-sleep re-entry hole as C1.  On `spacingRaceTrace`, B's dispatch settles
successfully at clock 121000 (so `lastCallTime = 121000`, the end of the
last successful dispatch), and at that same instant the second parked
activation wakes and starts C's invocation: the gap from the end of the
successful dispatch to the start of the next is 0 < MIN_DELAY.  The
theorem evaluates the interleaving model at that schedule: C is in flight,
and the clock at which it started is strictly less than
`lastCallTime + MIN_DELAY`.  (The sequential drain does satisfy the
spacing — see `dispatches_chain` — but the claim quantifies over all
dispatch pairs, and these interleavings break it.) -/
theorem C3_minimum_spacing_violated :
    (run raceStart spacingRaceTrace).tasks.get? 0 = some (.invoking jobC) ∧
      (run raceStart spacingRaceTrace).lastCallTime = 121000 ∧
      (run raceStart spacingRaceTrace).clock = 121000 ∧
      (run raceStart spacingRaceTrace).clock <
        (run raceStart spacingRaceTrace).lastCallTime + MIN_DELAY := by
  decide

/-- C4: retry contract of safeAIRequest.  First conjunct: if every attempt
up to index `maxRetries` fails, the wrapper performs exactly `maxRetries`
retries — `maxRetries + 1` attempts in all, one fixed backoff delay before
each retry — and propagates the failure of the last attempt unchanged.
Second conjunct: if the first success is on attempt `k ≤ maxRetries`, the
wrapper returns that result after exactly `k` backoff delays. -/
theorem C4_retry_contract :
    (∀ {ε α : Type} (fn : Nat → Except ε α) (err : Nat → ε) (m : Nat),
        (∀ k, k ≤ m → fn k = .error (err k)) →
        safeAIRequest fn (m : Int) 0 = (.error (err m), m)) ∧
      ∀ {ε α : Type} (fn : Nat → Except ε α) (m k : Nat) (v : α), k ≤ m →
        (∀ j, j < k → isOkB (fn j) = false) → fn k = .ok v →
        safeAIRequest fn (m : Int) 0 = (.ok v, k) := by
  constructor
  · intro ε α fn err m hfail
    have h := safeAIRequest_all_fail fn err m 0 fun k _ h2 => hfail k (by omega)
    simpa using h
  · intro ε α fn m k v hk hfail hok
    have h := safeAIRequest_first_success fn m 0 k v hk
      (fun j hj => by simpa using hfail j hj) (by simpa using hok)
    exact h

/-- Witness for C4 with `maxRetries = 2` (the source default): a thunk that
always fails costs 2 delays and surfaces the attempt-2 error; a thunk that
fails twice then succeeds resolves with the result after 2 delays. -/
theorem C4_retry_contract_witness :
    safeAIRequest (fun k => (.error k : Except Nat Nat)) ((2 : Nat) : Int) 0
        = (.error 2, 2) ∧
      safeAIRequest
          (fun k => if k < 2 then (.error k : Except Nat Nat) else .ok 42)
          ((2 : Nat) : Int) 0 = (.ok 42, 2) :=
  ⟨C4_retry_contract.1 (fun k => .error k) (fun k => k) 2 fun _ _ => rfl,
   C4_retry_contract.2 (fun k => if k < 2 then .error k else .ok 42) 2 2 42
     (by omega) (by decide) (by decide)⟩

/-- C6: cancellation (modelled from the spec — the source has no
cancelQueued).  Every queued job matched by the predicate has its completion
handle rejected with CancelledBeforeDispatch, and a subsequent drain of the
remaining queue never invokes it. -/
theorem C6_cancellation :
    ∀ (p : Job → Bool) (q : List Job) (j : Job), j ∈ q → p j = true →
      (j, ErrKind.CancelledBeforeDispatch) ∈ (cancelQueued p q).2 ∧
      ∀ (minDelay t c : Nat) (d : Dispatch),
        d ∈ dispatches minDelay (cancelQueued p q).1 t c → d.job ≠ j := by
  intro p q j hj hpj
  constructor
  · exact List.mem_map_of_mem _ (List.mem_filter.mpr ⟨hj, hpj⟩)
  · intro md t c d hd heq
    have hmem : d.job ∈ (cancelQueued p q).1 := by
      rw [← dispatches_map_job md (cancelQueued p q).1 t c]
      exact List.mem_map_of_mem _ hd
    have hfil := (List.mem_filter.mp hmem).2
    rw [heq, hpj] at hfil
    simp at hfil

/-- Witness for C6: cancelling job 0 out of [A, B] rejects A's handle with
CancelledBeforeDispatch and the remaining drain dispatches only B. -/
theorem C6_cancellation_witness :
    (jobA, ErrKind.CancelledBeforeDispatch) ∈ (cancelQueued cancelPred [jobA, jobB]).2 ∧
      (⟨jobB, 0, 0, .ok 0⟩ : Dispatch).job ≠ jobA :=
  ⟨(C6_cancellation cancelPred [jobA, jobB] jobA (by decide) (by decide)).1,
   (C6_cancellation cancelPred [jobA, jobB] jobA (by decide) (by decide)).2
     0 0 0 ⟨jobB, 0, 0, .ok 0⟩ (by decide)⟩

theorem startCooldown_frame (ms : Nat) (s : ModuleState) :
    (startCooldown ms s).jobQueue = s.jobQueue ∧
      (startCooldown ms s).isRunning = s.isRunning ∧
      (startCooldown ms s).lastCallTime = s.lastCallTime := by
  unfold startCooldown
  cases s.statusBarItem <;> simp

theorem stopCooldown_frame (s : ModuleState) :
    (stopCooldown s).jobQueue = s.jobQueue ∧
      (stopCooldown s).isRunning = s.isRunning ∧
      (stopCooldown s).lastCallTime = s.lastCallTime := by
  unfold stopCooldown
  cases s.statusBarItem <;> simp

theorem cooldownTick_frame (s : ModuleState) :
    (cooldownTick s).jobQueue = s.jobQueue ∧
      (cooldownTick s).isRunning = s.isRunning ∧
      (cooldownTick s).lastCallTime = s.lastCallTime := by
  unfold cooldownTick
  cases s.cooldownInterval with
  | none => simp
  | some r =>
    dsimp only
    by_cases h : r - 1 = 0
    · rw [if_pos h]
      exact stopCooldown_frame s
    · rw [if_neg h]
      simp

/-- C10: UI noninterference.  The cooldown display code (startCooldown,
stopCooldown, and the interval callback) never modifies jobQueue, isRunning
or lastCallTime, and a drain's dispatch trace — order, timing and
settlements — is identical for any two module states, in particular whether
or not initScheduler installed a status bar item. -/
theorem C10_ui_noninterference :
    (∀ (ms : Nat) (s : ModuleState),
        (startCooldown ms s).jobQueue = s.jobQueue ∧
        (startCooldown ms s).isRunning = s.isRunning ∧
        (startCooldown ms s).lastCallTime = s.lastCallTime) ∧
      (∀ s : ModuleState,
        (stopCooldown s).jobQueue = s.jobQueue ∧
        (stopCooldown s).isRunning = s.isRunning ∧
        (stopCooldown s).lastCallTime = s.lastCallTime) ∧
      (∀ s : ModuleState,
        (cooldownTick s).jobQueue = s.jobQueue ∧
        (cooldownTick s).isRunning = s.isRunning ∧
        (cooldownTick s).lastCallTime = s.lastCallTime) ∧
      ∀ (minDelay : Nat) (q : List Job) (t c : Nat) (s s2 : ModuleState),
        (processQueue minDelay q t c s).1 = (processQueue minDelay q t c s2).1 :=
  ⟨startCooldown_frame, stopCooldown_frame, cooldownTick_frame,
   processQueue_fst_const⟩

end AiScheduler
